import Mathlib

/-!
Verification of the evolutionary-search core of the pynguin repository.

The Lean definitions below shallowly embed the Python code of
`src/pynguin/ga/testcasechromosome.py` and
`src/pynguin/generation/generationalgorithmfactory.py`.

Conventions of the embedding:
* Python floats drawn from the global pseudo-random source become rationals
  (`ℚ`); the source is modelled as a stream `s : Nat → ℚ` together with an
  index that is advanced by one for every draw the Python code makes.
* Python `assert` failures and raised exceptions become `Except.error`.
* Statement objects of the test-case module (which is not part of the
  excerpt) are modelled by a small record carrying exactly the data the
  chromosome code observes: whether the statement is a call on the software
  under test, an identity tag, and the `ret_val.distance` field saved and
  restored by the change sub-operator.
* The construction capability (`pynguin.testcase.testfactory.TestFactory`,
  not part of the excerpt) is a record of behaviour functions: each takes
  the current random index and returns the advanced index, so a behaviour
  may consume an arbitrary amount of randomness internally.
-/

namespace Pynguin

/-- Modelled from the spec: one operation node of an Operation Sequence.
`callOnSut` records whether the operation directly exercises the software
under test, `ident` is an identity tag used to tell statements apart, and
`distance` models the `ret_val.distance` field read and restored by the
change sub-operator. -/
structure Stmt where
  callOnSut : Bool
  ident : Nat
  distance : ℚ
deriving DecidableEq, Repr

/-- The wrapped test case: an ordered sequence of statements
(`pynguin.testcase.testcase`; only its list structure is observed by the
chromosome code). -/
structure TestCase where
  statements : List Stmt
deriving DecidableEq, Repr

/-- Embeds `TestCase.size()`: the number of statements. -/
def TestCase.size (tc : TestCase) : Nat := tc.statements.length

/-- Modelled from the spec: `TestCase.chop(pos)` (the spec's `truncate(k)`)
keeps positions `0..pos` inclusive and discards the rest. -/
def TestCase.chop (tc : TestCase) (pos : Nat) : TestCase :=
  ⟨tc.statements.take (pos + 1)⟩

/-- Modelled from the spec: an Execution Result records at most one index,
the position of the first operation whose execution raised an exception
(`pynguin.testcase.execution.executionresult`, not part of the excerpt). -/
structure ExecutionResult where
  firstException : Option Nat
deriving DecidableEq, Repr

/-- Embeds `ExecutionResult.has_test_exceptions()`. -/
def ExecutionResult.has_test_exceptions (r : ExecutionResult) : Bool :=
  r.firstException.isSome

/-- Embeds `ExecutionResult.get_first_position_of_thrown_exception()`. -/
def ExecutionResult.get_first_position_of_thrown_exception
    (r : ExecutionResult) : Option Nat :=
  r.firstException

/-- Modelled from the spec: the construction capability
(`pynguin.testcase.testfactory.TestFactory`, not part of the excerpt).
Every behaviour takes the current random index first and returns the
advanced index last. `insert_random_statement` returns the position of the
inserted statement (or `-1` for failure, as an `Int`);
`delete_statement_gracefully` returns the modified sequence and whether it
changed; `change_random_call` returns the replacement for the given
statement, or `none` when no compatible replacement was found. -/
structure TestFactory where
  insert_random_statement : Nat → TestCase → Nat → TestCase × Int × Nat
  delete_statement_gracefully : Nat → TestCase → Nat → TestCase × Bool × Nat
  change_random_call : Nat → Stmt → Option Stmt × Nat

/-- Modelled from the spec: `TestFactory.has_call_on_sut(sequence)` — the
sequence contains at least one operation that directly exercises the
software under test. -/
def has_call_on_sut (tc : TestCase) : Bool :=
  tc.statements.any (·.callOnSut)

/-- Modelled from the spec: `statement.mutate()` — the statement's own
in-place parameter mutation.  Given the current random index and the
statement, it returns `some st'` when the statement mutated itself into
`st'` (Python: returned `True`) or `none` when it offers no internal
mutation (Python: returned `False`), plus the advanced random index. -/
def StmtMutator : Type := Nat → Stmt → Option Stmt × Nat

/-- Embeds `TestCaseChromosome` (src/pynguin/ga/testcasechromosome.py, lines
21–53): the wrapped test case, the optional test factory, the `changed`
flag, the last execution result and the mutation counter. -/
structure TestCaseChromosome where
  testCase : TestCase
  testFactory : Option TestFactory
  changed : Bool
  lastExecutionResult : Option ExecutionResult
  numMutations : Nat

/-- The `search_algorithm` configuration knobs consumed by the chromosome
(`pynguin.configuration`, consumed verbatim per the spec). -/
structure SearchAlgorithmConfig where
  chromosome_length : Nat
  chop_max_length : Bool
  test_delete_probability : ℚ
  test_change_probability : ℚ
  test_insert_probability : ℚ
  statement_insertion_probability : ℚ

/-- Embeds `TestCaseChromosome.get_last_mutatable_statement` (lines 227–248),
expressed on the wrapped test case and the last execution result. -/
def getLastMutatableStatement (tc : TestCase) (res : Option ExecutionResult) :
    Option Nat :=
  if tc.size = 0 then none
  else
    match res with
    | some r =>
      if r.has_test_exceptions then
        match r.get_first_position_of_thrown_exception with
        | some position =>
          if position < tc.size then some position else some (tc.size - 1)
        | none => some (tc.size - 1)
      else some (tc.size - 1)
    | none => some (tc.size - 1)

/-- Embeds `TestCaseChromosome.get_last_mutatable_statement()` as a method of the
chromosome. -/
def TestCaseChromosome.get_last_mutatable_statement
    (c : TestCaseChromosome) : Option Nat :=
  getLastMutatableStatement c.testCase c.lastExecutionResult

/-- Embeds the loop of `TestCaseChromosome._mutation_delete` (lines 156–162):
iterate over the candidate indices in the given order, skip an index that is
no longer within bounds, otherwise draw one random float and, when the draw
is at most `p`, perform `_delete_statement` (lines 165–168: assert that the
factory is present and call `delete_statement_gracefully`).  The last
component accumulates, for each `_delete_statement` invocation, the pair of
the index passed and the size of the test case at that moment; it is ghost
instrumentation read only by theorems. -/
def deleteLoop (f? : Option TestFactory) (s : Nat → ℚ) (p : ℚ)
    (idxs : List Nat) (tc : TestCase) (ch : Bool) (k : Nat)
    (tr : List (Nat × Nat)) :
    Except String (TestCase × Bool × Nat × List (Nat × Nat)) :=
  match idxs with
  | [] => .ok (tc, ch, k, tr)
  | idx :: rest =>
    if tc.size ≤ idx then deleteLoop f? s p rest tc ch k tr
    else if s k ≤ p then
      match f? with
      | none => .error "Mutation requires a test factory."
      | some f =>
        let r := f.delete_statement_gracefully (k + 1) tc idx
        deleteLoop f? s p rest r.1 (ch || r.2.1) r.2.2 (tr ++ [(idx, tc.size)])
    else deleteLoop f? s p rest tc ch (k + 1) tr

/-- Embeds `TestCaseChromosome._mutation_delete` (lines 151–163): guard on
the last mutatable statement, then attempt, in descending order and with
probability `1 / (last_mutatable_statement + 1)` each, a graceful deletion
for the indices `last_mutatable_statement .. 0`. -/
def mutation_delete (f? : Option TestFactory) (s : Nat → ℚ) (tc : TestCase)
    (res : Option ExecutionResult) (k : Nat) :
    Except String (TestCase × Bool × Nat × List (Nat × Nat)) :=
  match getLastMutatableStatement tc res with
  | none => .ok (tc, false, k, [])
  | some last_mutatable_statement =>
    deleteLoop f? s (Rat.divInt 1 (last_mutatable_statement + 1 : Int))
      ((List.range (last_mutatable_statement + 1)).reverse) tc false k []

/-- Embeds the loop of `TestCaseChromosome._mutation_change` (lines
175–193): scan the listed positions in order; at each one draw a float and,
when it is strictly below `p`, fetch the statement, try its own mutation
(`statement.mutate()`), fall back to `change_random_call` (asserting the
factory), and restore the saved `ret_val.distance`.  The last component
accumulates every position at which a statement was fetched (ghost
instrumentation). -/
def changeLoop (f? : Option TestFactory) (s : Nat → ℚ) (sm : StmtMutator)
    (p : ℚ) (positions : List Nat) (tc : TestCase) (ch : Bool) (k : Nat)
    (tr : List Nat) :
    Except String (TestCase × Bool × Nat × List Nat) :=
  match positions with
  | [] => .ok (tc, ch, k, tr)
  | position :: rest =>
    if s k < p then
      match tc.statements[position]? with
      | none => changeLoop f? s sm p rest tc ch (k + 1) tr
      | some statement =>
        let old_distance := statement.distance
        match sm (k + 1) statement with
        | (some st2, k2) =>
          changeLoop f? s sm p rest
            ⟨tc.statements.set position { st2 with distance := old_distance }⟩
            true k2 (tr ++ [position])
        | (none, k2) =>
          match f? with
          | none => .error "Mutation requires a test factory."
          | some f =>
            match f.change_random_call k2 statement with
            | (some st2, k3) =>
              changeLoop f? s sm p rest
                ⟨tc.statements.set position { st2 with distance := old_distance }⟩
                true k3 (tr ++ [position])
            | (none, k3) =>
              changeLoop f? s sm p rest tc ch k3 (tr ++ [position])
    else changeLoop f? s sm p rest tc ch (k + 1) tr

/-- Embeds `TestCaseChromosome._mutation_change` (lines 170–194): guard on
the last mutatable statement, then scan positions `0 ..
last_mutatable_statement`, each with probability
`1 / (last_mutatable_statement + 1)`. -/
def mutation_change (f? : Option TestFactory) (s : Nat → ℚ) (sm : StmtMutator)
    (tc : TestCase) (res : Option ExecutionResult) (k : Nat) :
    Except String (TestCase × Bool × Nat × List Nat) :=
  match getLastMutatableStatement tc res with
  | none => .ok (tc, false, k, [])
  | some last_mutatable_statement =>
    changeLoop f? s sm (Rat.divInt 1 (last_mutatable_statement + 1 : Int))
      (List.range (last_mutatable_statement + 1)) tc false k []

/-- Embeds the loop of `TestCaseChromosome._mutation_insert` (lines
203–225): while one random draw is at most `alpha ^ exponent` and the size
is strictly below the configured maximum, assert the factory, compute the
maximal insertion position from the last mutatable statement, call
`insert_random_statement`, increment the exponent, and record a change when
the returned position lies in `[0, size)`.  The Python loop terminates only
almost surely, so the embedding carries fuel: when the fuel is exhausted the
loop stops as if the Bernoulli trial had failed (theorems hold for every
fuel value). -/
def insertLoop (f? : Option TestFactory) (cfg : SearchAlgorithmConfig)
    (s : Nat → ℚ) (res : Option ExecutionResult) :
    Nat → TestCase → Bool → Nat → Nat →
    Except String (TestCase × Bool × Nat)
  | 0, tc, ch, _exponent, k => .ok (tc, ch, k)
  | fuel + 1, tc, ch, exponent, k =>
    if s k ≤ cfg.statement_insertion_probability ^ exponent ∧
        tc.size < cfg.chromosome_length then
      match f? with
      | none => .error "Mutation requires a test factory."
      | some f =>
        let max_position :=
          match getLastMutatableStatement tc res with
          | none => 0
          | some pos => pos + 1
        let r := f.insert_random_statement (k + 1) tc max_position
        let ch2 := if 0 ≤ r.2.1 ∧ r.2.1 < (r.1.size : Int) then true else ch
        insertLoop f? cfg s res fuel r.1 ch2 (exponent + 1) r.2.2
    else .ok (tc, ch, k + 1)

/-- Embeds `TestCaseChromosome._mutation_insert` (lines 196–225): run the
insertion loop with the exponent starting at 1 and no change recorded
yet. -/
def mutation_insert (f? : Option TestFactory) (cfg : SearchAlgorithmConfig)
    (s : Nat → ℚ) (tc : TestCase) (res : Option ExecutionResult)
    (fuel k : Nat) : Except String (TestCase × Bool × Nat) :=
  insertLoop f? cfg s res fuel tc false 1 k

/-- Embeds the length-control step of `TestCaseChromosome.mutate` (lines
109–116): when `chop_max_length` is set and the size has reached the
configured maximum, chop at the last mutatable position (when it exists)
and record a change.  Its first component is the test case of which the
safety backup is then taken (line 119). -/
def mutateChopStep (cfg : SearchAlgorithmConfig) (c : TestCaseChromosome) :
    TestCase × Bool :=
  if cfg.chop_max_length ∧ cfg.chromosome_length ≤ c.testCase.size then
    match getLastMutatableStatement c.testCase c.lastExecutionResult with
    | some last_mutatable_position =>
      (c.testCase.chop last_mutatable_position, true)
    | none => (c.testCase, false)
  else (c.testCase, false)

/-- Embeds the three probability-gated sub-operator applications of
`TestCaseChromosome.mutate` (lines 121–140): each gate consumes one random
draw; a passed gate runs the corresponding sub-operator; the returned flag
is the disjunction of the sub-operators' change reports. -/
def mutateSubOps (cfg : SearchAlgorithmConfig) (f? : Option TestFactory)
    (s : Nat → ℚ) (sm : StmtMutator) (fuel : Nat) (tc1 : TestCase)
    (res : Option ExecutionResult) (k : Nat) :
    Except String (TestCase × Bool × Nat) :=
  match (if s k ≤ cfg.test_delete_probability
         then mutation_delete f? s tc1 res (k + 1)
         else .ok (tc1, false, k + 1, [])) with
  | .error e => .error e
  | .ok (tc2, d, k2, _) =>
    match (if s k2 ≤ cfg.test_change_probability
           then mutation_change f? s sm tc2 res (k2 + 1)
           else .ok (tc2, false, k2 + 1, [])) with
    | .error e => .error e
    | .ok (tc3, chg, k3, _) =>
      match (if s k3 ≤ cfg.test_insert_probability
             then mutation_insert f? cfg s tc3 res fuel (k3 + 1)
             else .ok (tc3, false, k3 + 1)) with
      | .error e => .error e
      | .ok (tc4, ins, k4) => .ok (tc4, d || chg || ins, k4)

/-- Embeds `TestCaseChromosome.mutate` (lines 106–149): length control,
safety backup, the three gated sub-operators, the invariant-restoration
step (lines 142–145: assert the factory; when the resulting sequence has no
call on the SUT, restore the backup and run the insert sub-operator once
more, discarding its change report), and the final `changed` / mutation
counter update (lines 147–149). -/
def mutate (cfg : SearchAlgorithmConfig) (s : Nat → ℚ) (sm : StmtMutator)
    (fuel k : Nat) (c : TestCaseChromosome) :
    Except String TestCaseChromosome :=
  let chopped := mutateChopStep cfg c
  let backup := chopped.1
  match mutateSubOps cfg c.testFactory s sm fuel chopped.1
      c.lastExecutionResult k with
  | .error e => .error e
  | .ok (tc4, subChanged, k4) =>
    match c.testFactory with
    | none => .error "Required for mutation"
    | some _ =>
      match (if has_call_on_sut tc4 then
               (.ok (tc4, k4) : Except String (TestCase × Nat))
             else
               match mutation_insert c.testFactory cfg s backup
                   c.lastExecutionResult fuel k4 with
               | .error e => .error e
               | .ok (tcR, _, k5) => .ok (tcR, k5)) with
      | .error e => .error e
      | .ok (tcF, _) =>
        let changed := chopped.2 || subChanged
        if changed then
          .ok ⟨tcF, c.testFactory, true, c.lastExecutionResult,
            c.numMutations + 1⟩
        else
          .ok ⟨tcF, c.testFactory, c.changed, c.lastExecutionResult,
            c.numMutations⟩

/-- Chromosome kinds that can be passed to `cross_over`; the crossover
rejects every kind other than `TestCaseChromosome` with a fatal
assertion. -/
inductive Chromosome where
  | testCaseKind (c : TestCaseChromosome)
  | testSuiteKind

/-- Embeds the first copy loop of `cross_over` (lines 89–92): clone the
statements of `self` at indices `0 .. position1 - 1` into the offspring, in
order; an index outside the sequence raises (Python `IndexError` from
`get_statement`). -/
def cloneFirstStatements (tc : TestCase) : Nat → Except String (List Stmt)
  | 0 => .ok []
  | n + 1 =>
    match cloneFirstStatements tc n with
    | .error e => .error e
    | .ok acc =>
      match tc.statements[n]? with
      | none => .error "test case index out of range"
      | some st => .ok (acc ++ [st])

/-- Embeds `TestCaseChromosome.cross_over` (lines 78–104): assert the other
chromosome's kind, assert the factory, build the offspring from a copy of
`self`'s first `position1` statements followed by the other's statements
from `position2` on (appended through the factory's `append_statement`,
modelled from the spec as appending the operation), and install the
offspring only when its size is strictly below the configured maximum, in
which case `self` is marked changed. -/
def cross_over (cfg : SearchAlgorithmConfig) (c : TestCaseChromosome)
    (other : Chromosome) (position1 position2 : Nat) :
    Except String TestCaseChromosome :=
  match other with
  | .testSuiteKind =>
    .error "Cannot perform crossover with incompatible chromosome"
  | .testCaseKind o =>
    match c.testFactory with
    | none => .error "Crossover requires a test factory."
    | some _ =>
      match cloneFirstStatements c.testCase position1 with
      | .error e => .error e
      | .ok firstPart =>
        let offspring : TestCase :=
          ⟨firstPart ++ o.testCase.statements.drop position2⟩
        if offspring.size < cfg.chromosome_length then
          .ok ⟨offspring, c.testFactory, true, c.lastExecutionResult,
            c.numMutations⟩
        else .ok c

/-- Embeds `TestCaseChromosome.__init__` (lines 24–53): without an original
to clone, a test case must be supplied (else the constructor asserts);
otherwise the new chromosome copies the original's test case (a deep copy,
which for the value-level model is the same value), shares its factory and
last-result references and copies its scalar fields. -/
def initTestCaseChromosome (test_case : Option TestCase)
    (test_factory : Option TestFactory)
    (orig : Option TestCaseChromosome) :
    Except String TestCaseChromosome :=
  match orig with
  | some o =>
    .ok ⟨o.testCase, o.testFactory, o.changed, o.lastExecutionResult,
      o.numMutations⟩
  | none =>
    match test_case with
    | none => .error "Cannot create test case chromosome without test case"
    | some tc => .ok ⟨tc, test_factory, true, none, 0⟩

/-- Modelled from the spec: the configured stopping-condition kind
(`pynguin.configuration.StoppingCondition`, not part of the excerpt);
`unknown` stands for any configured value other than the three known
kinds. -/
inductive StoppingConditionKind where
  | MAX_ITERATIONS
  | MAX_TESTS
  | MAX_TIME
  | unknown (s : String)
deriving DecidableEq

/-- The stopping-condition implementations the factory can instantiate
(`pynguin.generation.stoppingconditions`). -/
inductive StoppingConditionImpl where
  | MaxIterationsStoppingCondition
  | MaxTestsStoppingCondition
  | MaxTimeStoppingCondition
deriving DecidableEq, Repr

/-- Embeds `GenerationAlgorithmFactory.get_stopping_condition`
(src/pynguin/generation/generationalgorithmfactory.py, lines 56–71): a
chain of equality tests with a warning-and-default fallback.  The second
component records whether the unknown-kind warning was logged.  The
function is total: no branch raises. -/
def get_stopping_condition (stopping_condition : StoppingConditionKind) :
    StoppingConditionImpl × Bool :=
  if stopping_condition = StoppingConditionKind.MAX_ITERATIONS then
    (.MaxIterationsStoppingCondition, false)
  else if stopping_condition = StoppingConditionKind.MAX_TESTS then
    (.MaxTestsStoppingCondition, false)
  else if stopping_condition = StoppingConditionKind.MAX_TIME then
    (.MaxTimeStoppingCondition, false)
  else (.MaxIterationsStoppingCondition, true)

/-- Modelled from the spec: the configured algorithm identifier
(`pynguin.configuration.Algorithm`, not part of the excerpt); `unknown`
stands for any identifier not in the strategy mapping. -/
inductive Algorithm where
  | RANDOOPY
  | RANDOMSEARCH
  | WSPY
  | unknown (s : String)
deriving DecidableEq

/-- The generation strategies the factory can construct
(`pynguin.generation.algorithms`). -/
inductive TestGenerationStrategy where
  | RandomTestStrategy
  | RandomSearchStrategy
  | WholeSuiteTestStrategy
deriving DecidableEq, Repr

/-- Embeds `TestSuiteGenerationAlgorithmFactory._strategies` (lines 88–92)
as the lookup function of the fixed dictionary. -/
def strategies (algorithm : Algorithm) : Option TestGenerationStrategy :=
  match algorithm with
  | .RANDOOPY => some .RandomTestStrategy
  | .RANDOMSEARCH => some .RandomSearchStrategy
  | .WSPY => some .WholeSuiteTestStrategy
  | .unknown _ => none

/-- Embeds `TestSuiteGenerationAlgorithmFactory._get_generation_strategy`
(lines 139–153): a hit in the mapping returns the strategy; a miss raises a
`ConfigurationException`, modelled as `Except.error` carrying its
message. -/
def get_generation_strategy (algorithm : Algorithm) :
    Except String TestGenerationStrategy :=
  match strategies algorithm with
  | some strategy => .ok strategy
  | none => .error "No suitable generation strategy found."

namespace Heap

/-- A store of test-case objects addressed by references, modelling Python
object identity for the clone claim: each cell holds the full (deep) value
of one test case. -/
structure Store where
  cells : List TestCase

/-- Reads the test-case object a reference denotes. -/
def Store.read (st : Store) (r : Nat) : Option TestCase := st.cells[r]?

/-- Mutates the test-case object a reference denotes (any in-place update
of the sequence or its statements). -/
def Store.write (st : Store) (r : Nat) (tc : TestCase) : Store :=
  ⟨st.cells.set r tc⟩

/-- Allocates a fresh test-case object holding the given value and returns
its reference. -/
def Store.alloc (st : Store) (tc : TestCase) : Store × Nat :=
  (⟨st.cells ++ [tc]⟩, st.cells.length)

/-- A chromosome at the object level: the test case is held by reference,
as are the shared factory and last-execution-result collaborators. -/
structure ChromosomeObj where
  testCaseRef : Nat
  testFactoryRef : Option Nat
  changed : Bool
  lastExecutionResultRef : Option Nat
  numMutations : Nat

/-- Embeds `TestCaseChromosome.clone` (lines 282–283) together with the
`orig` branch of `__init__` (lines 48–53) at the object level:
`orig._test_case.clone()` allocates a fresh test-case object holding a copy
of the original's value (the deep, reference-remapped copy of the spec),
while the factory and last-result references and the scalar fields are
taken over unchanged. -/
def cloneChromosome (st : Store) (c : ChromosomeObj) :
    Store × ChromosomeObj :=
  match st.read c.testCaseRef with
  | none => (st, c)
  | some tc =>
    let a := st.alloc tc
    (a.1, ⟨a.2, c.testFactoryRef, c.changed, c.lastExecutionResultRef,
      c.numMutations⟩)

end Heap

/-- A draw stream that always returns 1: every probability gate whose
threshold is below 1 fails. -/
def sOne : Nat → ℚ := fun _ => 1

/-- A draw stream that always returns 0: every probability gate passes. -/
def sZero : Nat → ℚ := fun _ => 0

/-- A draw stream whose first draw is 0 and whose later draws are 1. -/
def sFirstZero : Nat → ℚ := fun n => if n = 0 then 0 else 1

/-- A statement mutator that never mutates in place (the statement offers
no internal mutation). -/
def smNone : StmtMutator := fun k _ => (none, k)

/-- A concrete construction capability used by witnesses: insertion appends
one fresh statement at the end and reports its position, deletion removes
exactly the indexed statement, and call replacement finds no candidate. -/
def witnessFactory : TestFactory where
  insert_random_statement := fun k tc _ =>
    (⟨tc.statements ++ [⟨true, 100, 0⟩]⟩, (tc.statements.length : Int), k)
  delete_statement_gracefully := fun k tc idx =>
    (⟨tc.statements.take idx ++ tc.statements.drop (idx + 1)⟩, true, k)
  change_random_call := fun k _ => (none, k)

/-- Modelled from the spec: a construction capability whose graceful
deletion cascades — removing the statement at `idx` also removes its
dependent at `idx + 1` (spec §4.1: a dependent whose removed input cannot
be rebound to a compatible earlier value is removed too); insertion fails
(returns position −1 and leaves the sequence unchanged) and call
replacement finds no candidate. -/
def cascadeFactory : TestFactory where
  insert_random_statement := fun k tc _ => (tc, -1, k)
  delete_statement_gracefully := fun k tc idx =>
    (⟨tc.statements.take idx ++ tc.statements.drop (idx + 2)⟩, true, k)
  change_random_call := fun k _ => (none, k)

/-- A concrete five-statement sequence with identity tags 0–4. -/
def tc5 : TestCase :=
  ⟨[⟨true, 0, 0⟩, ⟨true, 1, 0⟩, ⟨true, 2, 0⟩, ⟨true, 3, 0⟩, ⟨true, 4, 0⟩]⟩

/-- Configuration with maximum length 2, chop-on-overflow enabled and every
probability knob set to one half. -/
def cfgHalf : SearchAlgorithmConfig :=
  ⟨2, true, Rat.divInt 1 2, Rat.divInt 1 2, Rat.divInt 1 2, Rat.divInt 1 2⟩

/-- Configuration with maximum length 2, chop-on-overflow disabled and
every probability knob set to one half. -/
def cfgNoChop : SearchAlgorithmConfig :=
  ⟨2, false, Rat.divInt 1 2, Rat.divInt 1 2, Rat.divInt 1 2, Rat.divInt 1 2⟩

/-- Configuration with maximum length 3, chop-on-overflow disabled and
every probability knob set to one half. -/
def cfgLen3 : SearchAlgorithmConfig :=
  ⟨3, false, Rat.divInt 1 2, Rat.divInt 1 2, Rat.divInt 1 2, Rat.divInt 1 2⟩

/-- The chromosome of the mutate counterexample: a statement that is not a
call on the SUT followed by one that is, with an exception recorded at
position 0, so the length-control chop removes the only SUT call. -/
def cex1 : TestCaseChromosome :=
  ⟨⟨[⟨false, 0, 0⟩, ⟨true, 1, 0⟩]⟩, some cascadeFactory, false,
    some ⟨some 0⟩, 0⟩

/-- Predicate on the construction capability, modelled from the spec:
`insert_random_statement` inserts one randomly constructed operation and
therefore never removes an existing statement. -/
def InsertKeepsStatements (f : TestFactory) : Prop :=
  ∀ n tc mp st, st ∈ tc.statements →
    st ∈ ((f.insert_random_statement n tc mp).1).statements

/-- Predicate on the construction capability: one insertion call grows the
sequence by at most one statement (assumption named by the claim about the
insert sub-operator). -/
def InsertAddsAtMostOne (f : TestFactory) : Prop :=
  ∀ n tc mp, ((f.insert_random_statement n tc mp).1).size ≤ tc.size + 1

/-- A chromosome without a test factory, used to exercise the
factory-related assertions. -/
def noFacChromosome : TestCaseChromosome :=
  ⟨⟨[⟨true, 0, 0⟩]⟩, none, false, none, 0⟩

section MainTheorems

/-- Unfolding lemma for the delete loop on an empty index list. -/
theorem deleteLoop_nil (f? : Option TestFactory) (s : Nat → ℚ) (p : ℚ)
    (tc : TestCase) (ch : Bool) (k : Nat) (tr : List (Nat × Nat)) :
    deleteLoop f? s p [] tc ch k tr = .ok (tc, ch, k, tr) := rfl

/-- Unfolding lemma for the delete loop on a non-empty index list. -/
theorem deleteLoop_cons (f? : Option TestFactory) (s : Nat → ℚ) (p : ℚ)
    (idx : Nat) (rest : List Nat) (tc : TestCase) (ch : Bool) (k : Nat)
    (tr : List (Nat × Nat)) :
    deleteLoop f? s p (idx :: rest) tc ch k tr =
      (if tc.size ≤ idx then deleteLoop f? s p rest tc ch k tr
       else if s k ≤ p then
         match f? with
         | none => .error "Mutation requires a test factory."
         | some f =>
           deleteLoop f? s p rest
             (f.delete_statement_gracefully (k + 1) tc idx).1
             (ch || (f.delete_statement_gracefully (k + 1) tc idx).2.1)
             (f.delete_statement_gracefully (k + 1) tc idx).2.2
             (tr ++ [(idx, tc.size)])
       else deleteLoop f? s p rest tc ch (k + 1) tr) := rfl

/-- C2: `get_last_mutatable_statement()` returns `none` on an empty test
case; returns the recorded first exception position `p` when the last
execution result records a thrown exception with `p < size()`; and returns
`size() - 1` in every other case (no execution result, no exception, or a
recorded position that is out of bounds). -/
theorem get_last_mutatable_statement_spec (c : TestCaseChromosome) :
    (c.testCase.size = 0 → c.get_last_mutatable_statement = none) ∧
    (∀ r p, c.testCase.size ≠ 0 → c.lastExecutionResult = some r →
      r.firstException = some p → p < c.testCase.size →
      c.get_last_mutatable_statement = some p) ∧
    (c.testCase.size ≠ 0 →
      (c.lastExecutionResult = none ∨
       (∃ r, c.lastExecutionResult = some r ∧ r.firstException = none) ∨
       (∃ r p, c.lastExecutionResult = some r ∧ r.firstException = some p ∧
         ¬ p < c.testCase.size)) →
      c.get_last_mutatable_statement = some (c.testCase.size - 1)) := by
  unfold TestCaseChromosome.get_last_mutatable_statement getLastMutatableStatement
  refine ⟨fun h => by simp [h], fun r p hne hres hexc hlt => ?_, fun hne hcases => ?_⟩
  · simp [hne, hres, ExecutionResult.has_test_exceptions, hexc,
      ExecutionResult.get_first_position_of_thrown_exception, hlt]
  · rcases hcases with h | ⟨r, hr, hn⟩ | ⟨r, p, hr, hp, hnlt⟩
    · simp [hne, h]
    · simp [hne, hr, ExecutionResult.has_test_exceptions, hn]
    · simp [hne, hr, ExecutionResult.has_test_exceptions, hp,
        ExecutionResult.get_first_position_of_thrown_exception, hnlt]

/-- Witness for C2: each branch of the characterisation evaluated at a
concrete chromosome. -/
theorem get_last_mutatable_statement_spec_witness :
    (TestCaseChromosome.get_last_mutatable_statement
      ⟨⟨[]⟩, none, true, none, 0⟩ = none) ∧
    (TestCaseChromosome.get_last_mutatable_statement
      ⟨⟨[⟨true, 0, 0⟩, ⟨true, 1, 0⟩, ⟨true, 2, 0⟩]⟩, none, true,
        some ⟨some 1⟩, 0⟩ = some 1) ∧
    (TestCaseChromosome.get_last_mutatable_statement
      ⟨⟨[⟨true, 0, 0⟩, ⟨true, 1, 0⟩]⟩, none, true, some ⟨some 5⟩, 0⟩ =
      some 1) := by
  refine ⟨?_, ?_, ?_⟩
  · exact (get_last_mutatable_statement_spec ⟨⟨[]⟩, none, true, none, 0⟩).1 rfl
  · exact (get_last_mutatable_statement_spec _).2.1 ⟨some 1⟩ 1
      (by decide) rfl rfl (by decide)
  · exact (get_last_mutatable_statement_spec
      ⟨⟨[⟨true, 0, 0⟩, ⟨true, 1, 0⟩]⟩, none, true, some ⟨some 5⟩, 0⟩).2.2
      (by decide) (Or.inr (Or.inr ⟨⟨some 5⟩, 5, rfl, rfl, by decide⟩))

/-- C7: `get_stopping_condition` maps the three known kinds to their
conditions without a warning, and maps every other configured value, with a
logged warning, to `MaxIterationsStoppingCondition`; being a total function
into plain values, it never raises. -/
theorem get_stopping_condition_spec :
    get_stopping_condition .MAX_ITERATIONS =
      (.MaxIterationsStoppingCondition, false) ∧
    get_stopping_condition .MAX_TESTS = (.MaxTestsStoppingCondition, false) ∧
    get_stopping_condition .MAX_TIME = (.MaxTimeStoppingCondition, false) ∧
    ∀ str, get_stopping_condition (.unknown str) =
      (.MaxIterationsStoppingCondition, true) :=
  ⟨rfl, rfl, rfl, fun _ => rfl⟩

/-- C8: `_get_generation_strategy` returns the strategy bound to the
identifier in the fixed mapping and raises a `ConfigurationException` for
every identifier not in the mapping — no silent fallback. -/
theorem get_generation_strategy_spec :
    get_generation_strategy .RANDOOPY = .ok .RandomTestStrategy ∧
    get_generation_strategy .RANDOMSEARCH = .ok .RandomSearchStrategy ∧
    get_generation_strategy .WSPY = .ok .WholeSuiteTestStrategy ∧
    ∀ str, get_generation_strategy (.unknown str) =
      .error "No suitable generation strategy found." :=
  ⟨rfl, rfl, rfl, fun _ => rfl⟩

/-- C6: at the object level, `clone()` yields a chromosome whose test case
is a fresh object holding the same value as the original's (a deep,
independent copy: writing through either reference leaves the value seen
through the other unchanged), while the test-factory reference and the
last-execution-result reference are shared, and the `changed` flag and the
mutation counter are copied verbatim. -/
theorem clone_deep_copy (st : Heap.Store) (c : Heap.ChromosomeObj)
    (tc : TestCase) (h : st.read c.testCaseRef = some tc) :
    (Heap.cloneChromosome st c).2.testCaseRef ≠ c.testCaseRef ∧
    (Heap.cloneChromosome st c).1.read (Heap.cloneChromosome st c).2.testCaseRef
      = some tc ∧
    (Heap.cloneChromosome st c).1.read c.testCaseRef = some tc ∧
    (∀ tc2, ((Heap.cloneChromosome st c).1.write
        (Heap.cloneChromosome st c).2.testCaseRef tc2).read c.testCaseRef
      = some tc) ∧
    (∀ tc2, ((Heap.cloneChromosome st c).1.write c.testCaseRef tc2).read
        (Heap.cloneChromosome st c).2.testCaseRef = some tc) ∧
    (Heap.cloneChromosome st c).2.testFactoryRef = c.testFactoryRef ∧
    (Heap.cloneChromosome st c).2.lastExecutionResultRef
      = c.lastExecutionResultRef ∧
    (Heap.cloneChromosome st c).2.changed = c.changed ∧
    (Heap.cloneChromosome st c).2.numMutations = c.numMutations := by
  have hlt : c.testCaseRef < st.cells.length := by
    by_contra hge
    rw [Heap.Store.read, List.getElem?_eq_none (Nat.le_of_not_lt hge)] at h
    exact Option.noConfusion h
  have hne : st.cells.length ≠ c.testCaseRef := fun he => absurd (he ▸ hlt) (lt_irrefl _)
  have h2 : st.cells[c.testCaseRef]? = some tc := h
  simp only [Heap.cloneChromosome, Heap.Store.alloc, Heap.Store.read,
    Heap.Store.write, h2]
  refine ⟨hne, ?_, ?_, ?_, ?_, trivial, trivial, trivial, trivial⟩
  · exact List.getElem?_concat_length st.cells tc
  · rw [List.getElem?_append_left hlt]; exact h
  · intro tc2
    rw [List.getElem?_set_ne hne, List.getElem?_append_left hlt]; exact h
  · intro tc2
    rw [List.getElem?_set_ne (fun he => hne he.symm)]
    exact List.getElem?_concat_length st.cells tc

/-- Witness for C6: the clone theorem applied to a one-cell store. -/
theorem clone_deep_copy_witness :
    (Heap.cloneChromosome ⟨[⟨[⟨true, 0, 0⟩]⟩]⟩
        ⟨0, some 7, true, none, 3⟩).2.testCaseRef ≠ 0 ∧
    (Heap.cloneChromosome ⟨[⟨[⟨true, 0, 0⟩]⟩]⟩
        ⟨0, some 7, true, none, 3⟩).2.testFactoryRef = some 7 := by
  have h := clone_deep_copy ⟨[⟨[⟨true, 0, 0⟩]⟩]⟩ ⟨0, some 7, true, none, 3⟩
    ⟨[⟨true, 0, 0⟩]⟩ rfl
  exact ⟨h.1, h.2.2.2.2.2.1⟩

/-- Helper: when `position1` is within bounds, the first copy loop of
`cross_over` produces exactly the first `position1` statements. -/
theorem cloneFirstStatements_ok (tc : TestCase) :
    ∀ n, n ≤ tc.size →
      cloneFirstStatements tc n = .ok (tc.statements.take n) := by
  intro n
  induction n with
  | zero => intro h; simp [cloneFirstStatements]
  | succ m ih =>
    intro h
    have hm : m ≤ tc.size := Nat.le_of_succ_le h
    have hlt : m < tc.statements.length := h
    rw [cloneFirstStatements, ih hm]
    rw [List.getElem?_eq_getElem hlt]
    rw [List.take_succ, List.getElem?_eq_getElem hlt]
    rfl

/-- C3: `cross_over` builds the offspring from a copy of self's first
`position1` statements followed by the other's statements from `position2`
to the end; when the offspring's size meets or exceeds
`chromosome_length`, self's test case and `changed` flag are left
untouched, otherwise the offspring is installed and self is marked
changed — so an installed sequence always has size strictly below
`chromosome_length`. -/
theorem cross_over_spec (cfg : SearchAlgorithmConfig)
    (c o : TestCaseChromosome) (position1 position2 : Nat) (f : TestFactory)
    (hf : c.testFactory = some f) (hp : position1 ≤ c.testCase.size) :
    (cross_over cfg c (.testCaseKind o) position1 position2 =
      .ok (if (c.testCase.statements.take position1 ++
              o.testCase.statements.drop position2).length <
            cfg.chromosome_length then
        ⟨⟨c.testCase.statements.take position1 ++
            o.testCase.statements.drop position2⟩, c.testFactory, true,
          c.lastExecutionResult, c.numMutations⟩
      else c)) ∧
    (∀ c', cross_over cfg c (.testCaseKind o) position1 position2 = .ok c' →
      c'.testCase.size < cfg.chromosome_length ∨
      (c'.testCase = c.testCase ∧ c'.changed = c.changed)) := by
  have hcf := cloneFirstStatements_ok c.testCase position1 hp
  constructor
  · simp only [cross_over, hf, hcf, TestCase.size]
    split <;> rfl
  · intro c' hc'
    simp only [cross_over, hf, hcf, TestCase.size] at hc'
    split at hc'
    · rename_i hlen
      injection hc' with hc'
      left
      rw [← hc']
      exact hlen
    · injection hc' with hc'
      right
      rw [← hc']
      exact ⟨rfl, rfl⟩

/-- Witness for C3: a concrete installed crossover. -/
theorem cross_over_spec_witness :
    cross_over cfgLen3 ⟨⟨[⟨true, 0, 0⟩]⟩, some witnessFactory, false, none, 0⟩
      (.testCaseKind ⟨⟨[⟨true, 5, 0⟩]⟩, none, false, none, 0⟩) 1 0 =
    .ok ⟨⟨[⟨true, 0, 0⟩, ⟨true, 5, 0⟩]⟩, some witnessFactory, true, none,
      0⟩ := by
  have h := (cross_over_spec cfgLen3
    ⟨⟨[⟨true, 0, 0⟩]⟩, some witnessFactory, false, none, 0⟩
    ⟨⟨[⟨true, 5, 0⟩]⟩, none, false, none, 0⟩ 1 0 witnessFactory rfl
    (by decide)).1
  rw [h, if_pos]
  · rfl
  · decide

/-- C9: precondition violations fail immediately with an assertion error
and are never recovered: constructing a chromosome with neither an
original to clone nor a test case; calling `cross_over` with an argument
that is not a `TestCaseChromosome`; calling `cross_over` without a test
factory; and calling `mutate` without a test factory. -/
theorem precondition_assertions (cfg : SearchAlgorithmConfig) (s : Nat → ℚ)
    (sm : StmtMutator) (fuel k position1 position2 : Nat)
    (c : TestCaseChromosome) :
    (∀ tf, initTestCaseChromosome none tf none =
      .error "Cannot create test case chromosome without test case") ∧
    (cross_over cfg c .testSuiteKind position1 position2 =
      .error "Cannot perform crossover with incompatible chromosome") ∧
    (c.testFactory = none → ∀ o,
      cross_over cfg c (.testCaseKind o) position1 position2 =
        .error "Crossover requires a test factory.") ∧
    (c.testFactory = none → (mutate cfg s sm fuel k c).isOk = false) := by
  refine ⟨fun tf => rfl, rfl, fun hn o => by simp [cross_over, hn],
    fun hn => ?_⟩
  unfold mutate
  rw [hn]
  cases h1 : mutateSubOps cfg none s sm fuel (mutateChopStep cfg c).1
      c.lastExecutionResult k with
  | error e => simp [h1, Except.isOk, Except.toBool]
  | ok v =>
    obtain ⟨tc4, sb, k4⟩ := v
    simp [h1, Except.isOk, Except.toBool]

/-- Witness for C9: the four assertions evaluated at concrete inputs. -/
theorem precondition_assertions_witness :
    initTestCaseChromosome none none none =
      .error "Cannot create test case chromosome without test case" ∧
    cross_over cfgNoChop noFacChromosome .testSuiteKind 0 0 =
      .error "Cannot perform crossover with incompatible chromosome" ∧
    cross_over cfgNoChop noFacChromosome
        (.testCaseKind noFacChromosome) 0 0 =
      .error "Crossover requires a test factory." ∧
    (mutate cfgNoChop sOne smNone 1 0 noFacChromosome).isOk = false := by
  obtain ⟨h1, h2, h3, h4⟩ :=
    precondition_assertions cfgNoChop sOne smNone 1 0 0 0 noFacChromosome
  exact ⟨h1 none, h2, h3 rfl noFacChromosome, h4 rfl⟩

/-- Helper: the insertion loop keeps the size within the configured
maximum when each factory insertion adds at most one statement. -/
theorem insertLoop_size_le (f : TestFactory) (cfg : SearchAlgorithmConfig)
    (s : Nat → ℚ) (res : Option ExecutionResult)
    (hstep : InsertAddsAtMostOne f) :
    ∀ fuel tc ch exponent k out,
      insertLoop (some f) cfg s res fuel tc ch exponent k = .ok out →
      tc.size ≤ cfg.chromosome_length →
      out.1.size ≤ cfg.chromosome_length := by
  intro fuel
  induction fuel with
  | zero =>
    intro tc ch e k out h hle
    rw [insertLoop] at h
    injection h with h
    rw [← h]
    exact hle
  | succ m ih =>
    intro tc ch e k out h hle
    rw [insertLoop] at h
    split at h
    · rename_i hcond
      exact ih _ _ _ _ out h
        (le_trans (hstep _ _ _) (Nat.succ_le_of_lt hcond.2))
    · injection h with h
      rw [← h]
      exact hle

/-- C4: the insert sub-operator inserts only while the Bernoulli trial
with success probability `alpha ^ exponent` succeeds (exponent starting at
1 and incrementing each iteration) and the size is strictly below
`chromosome_length`; hence, when each call of the factory's
`insert_random_statement` adds at most one statement, a test case whose
size is at most `chromosome_length` on entry never exceeds it after
`_mutation_insert`. -/
theorem mutation_insert_size_bound (f : TestFactory)
    (cfg : SearchAlgorithmConfig) (s : Nat → ℚ) (tc : TestCase)
    (res : Option ExecutionResult) (fuel k : Nat)
    (out : TestCase × Bool × Nat) (hstep : InsertAddsAtMostOne f)
    (hin : tc.size ≤ cfg.chromosome_length)
    (h : mutation_insert (some f) cfg s tc res fuel k = .ok out) :
    out.1.size ≤ cfg.chromosome_length :=
  insertLoop_size_le f cfg s res hstep fuel tc false 1 k out h hin

/-- Witness for C4: a concrete insertion run against maximum length 2 that
fills the sequence and stops. -/
theorem mutation_insert_size_bound_witness :
    mutation_insert (some witnessFactory) cfgNoChop sZero ⟨[⟨true, 0, 0⟩]⟩
        none 3 0 =
      .ok (⟨[⟨true, 0, 0⟩, ⟨true, 100, 0⟩]⟩, true, 2) ∧
    (⟨[⟨true, 0, 0⟩, ⟨true, 100, 0⟩]⟩ : TestCase).size ≤
      cfgNoChop.chromosome_length := by
  have hrun : mutation_insert (some witnessFactory) cfgNoChop sZero
      ⟨[⟨true, 0, 0⟩]⟩ none 3 0 =
      .ok (⟨[⟨true, 0, 0⟩, ⟨true, 100, 0⟩]⟩, true, 2) := rfl
  refine ⟨hrun, ?_⟩
  exact mutation_insert_size_bound witnessFactory cfgNoChop sZero
    ⟨[⟨true, 0, 0⟩]⟩ none 3 0 _
    (fun n tc mp => by simp [witnessFactory, TestCase.size])
    (by decide) hrun

/-- Helper: every pair the delete loop records has its index strictly
below the size of the test case at the moment `_delete_statement` was
invoked, provided the accumulated trace already satisfies this. -/
theorem deleteLoop_trace_inbounds (f? : Option TestFactory) (s : Nat → ℚ)
    (p : ℚ) :
    ∀ idxs tc ch k tr out, (∀ pr ∈ tr, pr.1 < pr.2) →
      deleteLoop f? s p idxs tc ch k tr = .ok out →
      ∀ pr ∈ out.2.2.2, pr.1 < pr.2 := by
  intro idxs
  induction idxs with
  | nil =>
    intro tc ch k tr out htr h
    rw [deleteLoop_nil] at h
    injection h with h
    rw [← h]
    exact htr
  | cons idx rest ih =>
    intro tc ch k tr out htr h
    rw [deleteLoop_cons] at h
    split at h
    · exact ih _ _ _ _ out htr h
    · rename_i hsz
      split at h
      · cases f? with
        | none => exact Except.noConfusion h
        | some f =>
          refine ih _ _ _ _ out ?_ h
          intro pr hpr
          rcases List.mem_append.mp hpr with hmem | hmem
          · exact htr pr hmem
          · rw [List.mem_singleton] at hmem
            rw [hmem]
            exact Nat.lt_of_not_le hsz
      · exact ih _ _ _ _ out htr h

/-- C10: during `_mutation_delete`, a candidate index that has drifted out
of range because earlier graceful deletions shrank the test case is
skipped, so `_delete_statement` is only ever invoked with an index
strictly below the current size — together with the descending iteration
order, no out-of-range access occurs even when a graceful deletion
cascades and removes several statements at once. -/
theorem mutation_delete_inbounds (f : TestFactory) (s : Nat → ℚ)
    (tc : TestCase) (res : Option ExecutionResult) (k : Nat)
    (out : TestCase × Bool × Nat × List (Nat × Nat))
    (h : mutation_delete (some f) s tc res k = .ok out) :
    ∀ pr ∈ out.2.2.2, pr.1 < pr.2 := by
  unfold mutation_delete at h
  cases hlm : getLastMutatableStatement tc res with
  | none =>
    rw [hlm] at h
    injection h with h
    rw [← h]
    intro pr hpr
    exact absurd hpr (List.not_mem_nil pr)
  | some lm =>
    rw [hlm] at h
    exact deleteLoop_trace_inbounds (some f) s _ _ tc false k [] out
      (fun pr hpr => absurd hpr (List.not_mem_nil pr)) h

/-- Witness for C10: a concrete delete run in which both candidate indices
lead to an invocation; both recorded invocations are in bounds. -/
theorem mutation_delete_inbounds_witness :
    mutation_delete (some witnessFactory) sZero
        ⟨[⟨true, 0, 0⟩, ⟨true, 1, 0⟩]⟩ none 0 =
      .ok (⟨[]⟩, true, 2, [(1, 2), (0, 1)]) ∧
    (1 : Nat) < 2 ∧ (0 : Nat) < 1 := by
  have hrun : mutation_delete (some witnessFactory) sZero
      ⟨[⟨true, 0, 0⟩, ⟨true, 1, 0⟩]⟩ none 0 =
      .ok (⟨[]⟩, true, 2, [(1, 2), (0, 1)]) := rfl
  refine ⟨hrun, ?_, ?_⟩
  · exact mutation_delete_inbounds witnessFactory sZero _ none 0 _ hrun
      (1, 2) (by simp)
  · exact mutation_delete_inbounds witnessFactory sZero _ none 0 _ hrun
      (0, 1) (by simp)

/-- Unfolding lemma for the change loop on an empty position list. -/
theorem changeLoop_nil (f? : Option TestFactory) (s : Nat → ℚ)
    (sm : StmtMutator) (p : ℚ) (tc : TestCase) (ch : Bool) (k : Nat)
    (tr : List Nat) :
    changeLoop f? s sm p [] tc ch k tr = .ok (tc, ch, k, tr) := rfl

/-- Unfolding lemma for the change loop on a non-empty position list. -/
theorem changeLoop_cons (f? : Option TestFactory) (s : Nat → ℚ)
    (sm : StmtMutator) (p : ℚ) (position : Nat) (rest : List Nat)
    (tc : TestCase) (ch : Bool) (k : Nat) (tr : List Nat) :
    changeLoop f? s sm p (position :: rest) tc ch k tr =
      (if s k < p then
         match tc.statements[position]? with
         | none => changeLoop f? s sm p rest tc ch (k + 1) tr
         | some statement =>
           match sm (k + 1) statement with
           | (some st2, k2) =>
             changeLoop f? s sm p rest
               ⟨tc.statements.set position
                 { st2 with distance := statement.distance }⟩
               true k2 (tr ++ [position])
           | (none, k2) =>
             match f? with
             | none => .error "Mutation requires a test factory."
             | some f =>
               match f.change_random_call k2 statement with
               | (some st2, k3) =>
                 changeLoop f? s sm p rest
                   ⟨tc.statements.set position
                     { st2 with distance := statement.distance }⟩
                   true k3 (tr ++ [position])
               | (none, k3) =>
                 changeLoop f? s sm p rest tc ch k3 (tr ++ [position])
       else changeLoop f? s sm p rest tc ch (k + 1) tr) := rfl

/-- Helper: the change loop touches only the listed positions — every
recorded position stays below the bound, and every sequence entry at a
position above the bound is left unchanged. -/
theorem changeLoop_only_listed (f : TestFactory) (s : Nat → ℚ)
    (sm : StmtMutator) (p : ℚ) (bound : Nat) :
    ∀ positions tc ch k tr out,
      (∀ pos ∈ positions, pos ≤ bound) → (∀ pos ∈ tr, pos ≤ bound) →
      changeLoop (some f) s sm p positions tc ch k tr = .ok out →
      (∀ pos ∈ out.2.2.2, pos ≤ bound) ∧
      (∀ j, bound < j → out.1.statements[j]? = tc.statements[j]?) := by
  intro positions
  induction positions with
  | nil =>
    intro tc ch k tr out hpos htr h
    rw [changeLoop_nil] at h
    injection h with h
    rw [← h]
    exact ⟨htr, fun j hj => rfl⟩
  | cons position rest ih =>
    intro tc ch k tr out hpos htr h
    have hposb : position ≤ bound := hpos position (List.mem_cons_self position rest)
    have hrest : ∀ pos ∈ rest, pos ≤ bound :=
      fun pos hp => hpos pos (List.mem_cons_of_mem _ hp)
    have htr2 : ∀ pos ∈ tr ++ [position], pos ≤ bound := by
      intro pos hp
      rcases List.mem_append.mp hp with hm | hm
      · exact htr pos hm
      · rw [List.mem_singleton] at hm
        rw [hm]
        exact hposb
    rw [changeLoop_cons] at h
    split at h
    · split at h
      · exact ih _ _ _ _ _ hrest htr h
      · split at h
        · obtain ⟨h1, h2⟩ := ih _ _ _ _ _ hrest htr2 h
          refine ⟨h1, fun j hj => ?_⟩
          rw [h2 j hj]
          exact List.getElem?_set_ne (by omega)
        · split at h
          · exact Except.noConfusion h
          · split at h
            · obtain ⟨h1, h2⟩ := ih _ _ _ _ _ hrest htr2 h
              refine ⟨h1, fun j hj => ?_⟩
              rw [h2 j hj]
              exact List.getElem?_set_ne (by omega)
            · exact ih _ _ _ _ _ hrest htr2 h
    · exact ih _ _ _ _ _ hrest htr h

/-- Helper: the delete loop only records indices drawn from the candidate
list, so every recorded index stays below the bound. -/
theorem deleteLoop_trace_le (f : TestFactory) (s : Nat → ℚ) (p : ℚ)
    (bound : Nat) :
    ∀ idxs tc ch k tr out,
      (∀ i ∈ idxs, i ≤ bound) → (∀ pr ∈ tr, pr.1 ≤ bound) →
      deleteLoop (some f) s p idxs tc ch k tr = .ok out →
      ∀ pr ∈ out.2.2.2, pr.1 ≤ bound := by
  intro idxs
  induction idxs with
  | nil =>
    intro tc ch k tr out hidx htr h
    rw [deleteLoop_nil] at h
    injection h with h
    rw [← h]
    exact htr
  | cons idx rest ih =>
    intro tc ch k tr out hidx htr h
    have hidxb : idx ≤ bound := hidx idx (List.mem_cons_self idx rest)
    have hrest : ∀ i ∈ rest, i ≤ bound :=
      fun i hi => hidx i (List.mem_cons_of_mem _ hi)
    rw [deleteLoop_cons] at h
    split at h
    · exact ih _ _ _ _ _ hrest htr h
    · split at h
      · refine ih _ _ _ _ _ hrest ?_ h
        intro pr hpr
        rcases List.mem_append.mp hpr with hm | hm
        · exact htr pr hm
        · rw [List.mem_singleton] at hm
          rw [hm]
          exact hidxb
      · exact ih _ _ _ _ _ hrest htr h

/-- Helper: with an exception recorded at a position within bounds, the
last mutatable statement is exactly that position. -/
theorem getLastMutatable_of_exception (tc : TestCase) (kk : Nat)
    (hkk : kk < tc.size) :
    getLastMutatableStatement tc (some ⟨some kk⟩) = some kk := by
  unfold getLastMutatableStatement
  have hsz : ¬ tc.size = 0 := by omega
  simp [hsz, ExecutionResult.has_test_exceptions,
    ExecutionResult.get_first_position_of_thrown_exception, hkk]

/-- C5 (amended): with an exception recorded at index `kk < size()`, the
delete sub-operator invokes `_delete_statement` only at indices in
`[0, kk]` and the change sub-operator fetches and rewrites statements only
at positions in `[0, kk]`, leaving every position beyond `kk` unchanged —
positions `kk + 1 .. size - 1` are never directly targeted by either
sub-operator, although one graceful deletion invoked at an index `≤ kk`
may itself cascade inside the construction capability and remove dependent
statements at later positions. -/
theorem suboperators_respect_exception_bound (f : TestFactory)
    (s s2 : Nat → ℚ) (sm : StmtMutator) (tc : TestCase) (kk k k2 : Nat)
    (hkk : kk < tc.size) (outD : TestCase × Bool × Nat × List (Nat × Nat))
    (outC : TestCase × Bool × Nat × List Nat)
    (hD : mutation_delete (some f) s tc (some ⟨some kk⟩) k = .ok outD)
    (hC : mutation_change (some f) s2 sm tc (some ⟨some kk⟩) k2 = .ok outC) :
    (∀ pr ∈ outD.2.2.2, pr.1 ≤ kk) ∧
    (∀ pos ∈ outC.2.2.2, pos ≤ kk) ∧
    (∀ j, kk < j → outC.1.statements[j]? = tc.statements[j]?) := by
  have hlm := getLastMutatable_of_exception tc kk hkk
  unfold mutation_delete at hD
  rw [hlm] at hD
  unfold mutation_change at hC
  rw [hlm] at hC
  have hidx : ∀ i ∈ (List.range (kk + 1)).reverse, i ≤ kk := by
    intro i hi
    rw [List.mem_reverse, List.mem_range] at hi
    omega
  have hpos : ∀ i ∈ List.range (kk + 1), i ≤ kk := by
    intro i hi
    rw [List.mem_range] at hi
    omega
  refine ⟨?_, ?_⟩
  · exact deleteLoop_trace_le f s _ kk _ tc false k [] outD hidx
      (fun pr hpr => absurd hpr (List.not_mem_nil pr)) hD
  · exact changeLoop_only_listed f s2 sm _ kk _ tc false k2 [] outC hpos
      (fun pos hp => absurd hp (List.not_mem_nil pos)) hC

/-- Counterexample to C5 as stated: in a five-statement sequence (identity
tags 0–4) whose execution raised an exception at index 2, the delete
sub-operator invokes one graceful deletion at index 2; the capability
cascades (the statement at position 3 depends on the removed return value
and cannot be rebound) and the surviving identity tags are 0, 1 and 4 —
the statement that stood at position 3, beyond the last mutatable position
2, has been removed, contrary to the claim. -/
theorem delete_removes_beyond_exception_index :
    (mutation_delete (some cascadeFactory) sFirstZero tc5
        (some ⟨some 2⟩) 0).map (fun out => out.1.statements.map (·.ident)) =
      .ok [0, 1, 4] := rfl

/-- Witness for C5: a concrete run (all draws fail, so both sub-operators
leave the sequence alone) with the exception recorded at index 2. -/
theorem suboperators_respect_exception_bound_witness :
    mutation_delete (some witnessFactory) sOne tc5 (some ⟨some 2⟩) 0 =
      .ok (tc5, false, 3, []) ∧
    mutation_change (some witnessFactory) sOne smNone tc5 (some ⟨some 2⟩) 0 =
      .ok (tc5, false, 3, []) ∧
    (tc5, false, 3, ([] : List Nat)).1.statements[4]? = tc5.statements[4]? := by
  have hD : mutation_delete (some witnessFactory) sOne tc5 (some ⟨some 2⟩) 0 =
      .ok (tc5, false, 3, []) := rfl
  have hC : mutation_change (some witnessFactory) sOne smNone tc5
      (some ⟨some 2⟩) 0 = .ok (tc5, false, 3, []) := rfl
  refine ⟨hD, hC, ?_⟩
  exact (suboperators_respect_exception_bound witnessFactory sOne sOne smNone
    tc5 2 0 0 (by decide) _ _ hD hC).2.2 4 (by decide)

/-- Helper: the insertion loop never loses statements when the factory's
insertions keep existing statements. -/
theorem insertLoop_keeps_statements (f : TestFactory)
    (cfg : SearchAlgorithmConfig) (s : Nat → ℚ)
    (res : Option ExecutionResult) (hkeep : InsertKeepsStatements f) :
    ∀ fuel tc ch exponent k out,
      insertLoop (some f) cfg s res fuel tc ch exponent k = .ok out →
      ∀ st ∈ tc.statements, st ∈ out.1.statements := by
  intro fuel
  induction fuel with
  | zero =>
    intro tc ch e k out h st hst
    rw [insertLoop] at h
    injection h with h
    rw [← h]
    exact hst
  | succ m ih =>
    intro tc ch e k out h st hst
    rw [insertLoop] at h
    split at h
    · exact ih _ _ _ _ out h st (hkeep _ _ _ st hst)
    · injection h with h
      rw [← h]
      exact hst

/-- Helper: a sequence containing a call on the SUT keeps it under any
statement-preserving transformation. -/
theorem has_call_on_sut_mono (tc tc2 : TestCase)
    (hsub : ∀ st ∈ tc.statements, st ∈ tc2.statements)
    (h : has_call_on_sut tc = true) : has_call_on_sut tc2 = true := by
  rw [has_call_on_sut, List.any_eq_true] at h ⊢
  obtain ⟨st, hmem, hcall⟩ := h
  exact ⟨st, hsub st hmem, hcall⟩

/-- Counterexample to C1 as stated: the chromosome `cex1` enters `mutate`
with a call on the SUT; the length-control chop (exception recorded at
index 0, maximum length reached) removes it, every sub-operator gate
fails, and the forced extra insert pass performs no insertion because its
first Bernoulli trial fails — after `mutate` the sequence has no call on
the SUT. -/
theorem mutate_can_lose_call_on_sut :
    has_call_on_sut cex1.testCase = true ∧
    (mutate cfgHalf sOne smNone 1 0 cex1).map
        (fun c => has_call_on_sut c.testCase) = .ok false :=
  ⟨rfl, rfl⟩

/-- C1 (amended): when the sub-operators leave the sequence without a call
on the SUT, `mutate` restores the post-chop backup and runs the insert
sub-operator once more, which inserts a geometrically distributed number
of statements — possibly zero; the mutated sequence is therefore
guaranteed a call on the SUT whenever the backup has one (insertions never
remove statements), but not unconditionally. -/
theorem mutate_has_call_on_sut_of_backup (cfg : SearchAlgorithmConfig)
    (s : Nat → ℚ) (sm : StmtMutator) (fuel k : Nat)
    (c c' : TestCaseChromosome) (f : TestFactory)
    (hf : c.testFactory = some f) (hkeep : InsertKeepsStatements f)
    (hb : has_call_on_sut (mutateChopStep cfg c).1 = true)
    (h : mutate cfg s sm fuel k c = .ok c') :
    has_call_on_sut c'.testCase = true := by
  simp only [mutate, hf] at h
  cases h1 : mutateSubOps cfg (some f) s sm fuel (mutateChopStep cfg c).1
      c.lastExecutionResult k with
  | error e =>
    rw [h1] at h
    exact Except.noConfusion h
  | ok v =>
    obtain ⟨tc4, sb, k4⟩ := v
    simp only [h1] at h
    by_cases hsut : has_call_on_sut tc4 = true
    · rw [if_pos hsut] at h
      simp only [] at h
      split at h <;>
        · injection h with h
          rw [← h]
          exact hsut
    · rw [if_neg hsut] at h
      cases h2 : mutation_insert (some f) cfg s (mutateChopStep cfg c).1
          c.lastExecutionResult fuel k4 with
      | error e =>
        simp only [h2] at h
        exact Except.noConfusion h
      | ok w =>
        obtain ⟨tcR, chI, k5⟩ := w
        simp only [h2] at h
        have hmem : ∀ st ∈ (mutateChopStep cfg c).1.statements,
            st ∈ tcR.statements := by
          unfold mutation_insert at h2
          intro st hst
          exact insertLoop_keeps_statements f cfg s c.lastExecutionResult
            hkeep fuel _ false 1 k4 (tcR, chI, k5) h2 st hst
        have hres := has_call_on_sut_mono _ _ hmem hb
        split at h <;>
          · injection h with h
            rw [← h]
            exact hres

/-- Witness for C1: a chromosome whose backup keeps its call on the SUT is
still exercising the SUT after a `mutate` in which every gate failed. -/
theorem mutate_has_call_on_sut_of_backup_witness :
    mutate cfgNoChop sOne smNone 1 0
        ⟨⟨[⟨true, 0, 0⟩]⟩, some witnessFactory, false, none, 0⟩ =
      .ok ⟨⟨[⟨true, 0, 0⟩]⟩, some witnessFactory, false, none, 0⟩ ∧
    has_call_on_sut (⟨[⟨true, 0, 0⟩]⟩ : TestCase) = true := by
  have hrun : mutate cfgNoChop sOne smNone 1 0
      ⟨⟨[⟨true, 0, 0⟩]⟩, some witnessFactory, false, none, 0⟩ =
      .ok ⟨⟨[⟨true, 0, 0⟩]⟩, some witnessFactory, false, none, 0⟩ := rfl
  exact ⟨hrun, mutate_has_call_on_sut_of_backup cfgNoChop sOne smNone 1 0
    ⟨⟨[⟨true, 0, 0⟩]⟩, some witnessFactory, false, none, 0⟩
    ⟨⟨[⟨true, 0, 0⟩]⟩, some witnessFactory, false, none, 0⟩
    witnessFactory rfl (fun n tc mp st hst => List.mem_append_left _ hst)
    rfl hrun⟩

end MainTheorems

end Pynguin
